import Mathlib

/-!
# Sections widget of Cutter (`src/widgets/SectionsWidget.cpp`)

A shallow embedding of the list model (`SectionsModel`), the sort proxy
(`SectionsProxyModel::lessThan`) and the two slots of the dock widget
(`refreshSections`, `onSectionsDoubleClicked`), followed by the properties
proved about them.

Conventions of the embedding
* C `int` values (rows, columns, roles) are `Int`.
* `RVA` (`ut64`) values are `Nat`; the one addition in the file,
  `section.vaddr + section.size`, is taken modulo `2 ^ 64`.
* `QString` is the list of its UTF-16 code units; `operator<` on it is the
  code-unit-wise lexicographic comparison.
* `QList::at` / `QList::operator[]` outside `[0, size)` is a `Fault`
  (an assertion failure in debug builds, undefined behaviour otherwise), so
  every function that reads a list returns `Except Fault _`.
-/

namespace Cutter

/-! ## Qt value types -/

/-- A `QString`, as its sequence of UTF-16 code units. -/
abbrev QString := List Nat

/-- UTF-16 code units of one Unicode scalar value. -/
def utf16Units (c : Nat) : List Nat :=
  if c < 0x10000 then [c]
  else [0xD800 + (c - 0x10000) / 0x400, 0xDC00 + (c - 0x10000) % 0x400]

/-- The `QString` made from a C string literal of the source file. -/
def QString.fromLiteral (s : String) : QString :=
  (s.toList.map fun c => utf16Units c.toNat).flatten

/-- Comparison `operator<(const QString &, const QString &)`: the first
differing code unit decides, a proper prefix is smaller. -/
def QString.lt : QString → QString → Bool
  | [], [] => false
  | [], _ :: _ => true
  | _ :: _, [] => false
  | a :: as, b :: bs =>
    if a < b then true else if b < a then false else QString.lt as bs

/-- A `QColor`, as its `0xRRGGBB` value. -/
structure QColor where
  rgb : Nat
deriving DecidableEq, Repr

/-- Modelled from the spec: the struct `SectionDescription` is declared in a
header of the core that is missing; these are the four fields that this file
reads. `vaddr` and `size` are `RVA` (unsigned 64-bit), `name` and `entropy` are
`QString`. -/
structure SectionDescription where
  vaddr : Nat
  size : Nat
  name : QString
  entropy : QString
deriving DecidableEq, Repr

/-- A value-initialised `SectionDescription`, what
`QVariant::value<SectionDescription>()` yields for a variant holding no
section. -/
def SectionDescription.empty : SectionDescription :=
  { vaddr := 0, size := 0, name := [], entropy := [] }

/-- The `QVariant` values that this file produces. -/
inductive QVariant where
  | invalid
  | string (s : QString)
  | ulonglong (n : Nat)
  | color (c : QColor)
  | sectionDescription (s : SectionDescription)
deriving DecidableEq, Repr

/-- Conversion `QVariant::value<SectionDescription>()`. -/
def QVariant.value : QVariant → SectionDescription
  | .sectionDescription s => s
  | _ => SectionDescription.empty

/-- Out-of-range access to a `QList` of the given size. -/
inductive Fault where
  | indexOutOfRange (i : Int) (size : Nat)
deriving DecidableEq, Repr

/-- Reading `QList::at(i)` (and the const `operator[]`): defined only for
`0 <= i < size`. -/
def QList.at {α : Type} (l : List α) (i : Int) : Except Fault α :=
  if 0 ≤ i then
    match l.get? i.toNat with
    | some x => .ok x
    | none => .error (.indexOutOfRange i l.length)
  else .error (.indexOutOfRange i l.length)

deriving instance DecidableEq for Except

/-- A `QModelIndex`: row, column and whether the model pointer is set. -/
structure QModelIndex where
  row : Int
  column : Int
  m : Bool
deriving DecidableEq, Repr

/-- Validity `QModelIndex::isValid()`. -/
def QModelIndex.isValid (i : QModelIndex) : Bool :=
  decide (0 ≤ i.row) && decide (0 ≤ i.column) && i.m

/-- The default-constructed `QModelIndex()`. -/
def QModelIndex.null : QModelIndex := { row := -1, column := -1, m := false }

/-- Qt orientation of a header. -/
inductive Orientation where
  | Horizontal
  | Vertical
deriving DecidableEq, Repr

/-! ## Constants -/

/-- Role `Qt::DisplayRole`. -/
def DisplayRole : Int := 0
/-- Role `Qt::DecorationRole`. -/
def DecorationRole : Int := 1
/-- Role `Qt::UserRole`. -/
def UserRole : Int := 0x0100

/-- Modelled from the spec: the enumerators of `SectionsModel::Column` and
`SectionsModel::Role` are declared in the header `SectionsWidget.h`, which is
missing; the five columns are numbered in the order name, size, address,
end address, entropy, followed by `ColumnCount`. -/
def NameColumn : Int := 0
/-- Modelled from the spec: see `NameColumn`. -/
def SizeColumn : Int := 1
/-- Modelled from the spec: see `NameColumn`. -/
def AddressColumn : Int := 2
/-- Modelled from the spec: see `NameColumn`. -/
def EndAddressColumn : Int := 3
/-- Modelled from the spec: see `NameColumn`. -/
def EntropyColumn : Int := 4
/-- Modelled from the spec: see `NameColumn`. -/
def ColumnCount : Int := 5
/-- Modelled from the spec: see `NameColumn`; the custom role is the first
user role. -/
def SectionDescriptionRole : Int := UserRole

/-- The static palette `colors` of `SectionsModel::data`. -/
def colors : List QColor :=
  [ ⟨0x1ABC9C⟩, ⟨0x2ECC71⟩, ⟨0x3498DB⟩, ⟨0x9B59B6⟩, ⟨0x34495E⟩, ⟨0xF1C40F⟩,
    ⟨0xE67E22⟩, ⟨0xE74C3C⟩, ⟨0xECF0F1⟩, ⟨0xBDC3C7⟩, ⟨0x95A5A6⟩ ]

/-! ## SectionsModel -/

/-- Method `SectionsModel::rowCount`. -/
def SectionsModel.rowCount (sections : List SectionDescription) (_parent : QModelIndex) : Int :=
  sections.length

/-- Method `SectionsModel::columnCount`. -/
def SectionsModel.columnCount (_sections : List SectionDescription) (_parent : QModelIndex) : Int :=
  ColumnCount

/-- Method `SectionsModel::data`. `RAddressString` is the address formatter of
the core headers, taken as a parameter. -/
def SectionsModel.data (RAddressString : Nat → QString) (sections : List SectionDescription)
    (index : QModelIndex) (role : Int) : Except Fault QVariant :=
  if index.row ≥ (sections.length : Int) then .ok .invalid
  else
    match QList.at sections index.row with
    | .error e => .error e
    | .ok sec =>
      if role = DisplayRole then
        if index.column = NameColumn then .ok (.string sec.name)
        else if index.column = SizeColumn then .ok (.ulonglong sec.size)
        else if index.column = AddressColumn then
          .ok (.string (RAddressString sec.vaddr))
        else if index.column = EndAddressColumn then
          .ok (.string (RAddressString ((sec.vaddr + sec.size) % 2 ^ 64)))
        else if index.column = EntropyColumn then .ok (.string sec.entropy)
        else .ok .invalid
      else if role = DecorationRole then
        if index.column = 0 then
          match QList.at colors (Int.tmod index.row (colors.length : Int)) with
          | .error e => .error e
          | .ok c => .ok (.color c)
        else .ok .invalid
      else if role = SectionDescriptionRole then .ok (.sectionDescription sec)
      else .ok .invalid

/-- Method `SectionsModel::headerData`. `tr` is the translation lookup of
Qt. -/
def SectionsModel.headerData (tr : String → QString) (sec : Int) (_o : Orientation) (role : Int) :
    QVariant :=
  if role = DisplayRole then
    if sec = NameColumn then .string (tr "Name")
    else if sec = SizeColumn then .string (tr "Size")
    else if sec = AddressColumn then .string (tr "Address")
    else if sec = EndAddressColumn then .string (tr "End Address")
    else if sec = EntropyColumn then .string (tr "Entropy")
    else .invalid
  else .invalid

/-! ## SectionsProxyModel -/

/-- Call `QModelIndex::data(role)` on an index of the `SectionsModel`: an
index without model gives the invalid variant, otherwise the model is
asked. -/
def QModelIndex.data (RAddressString : Nat → QString)
    (sections : List SectionDescription) (index : QModelIndex) (role : Int) :
    Except Fault QVariant :=
  if index.m then SectionsModel.data RAddressString sections index role else .ok .invalid

/-- Method `SectionsProxyModel::lessThan`; both indexes are indexes of the
source model. -/
def SectionsProxyModel.lessThan (RAddressString : Nat → QString) (sections : List SectionDescription)
    (left right : QModelIndex) : Except Fault Bool :=
  match QModelIndex.data RAddressString sections left SectionDescriptionRole with
  | .error e => .error e
  | .ok lv =>
    match QModelIndex.data RAddressString sections right SectionDescriptionRole with
    | .error e => .error e
    | .ok rv =>
      let leftSection := lv.value
      let rightSection := rv.value
      if left.column = NameColumn then
        .ok (QString.lt leftSection.name rightSection.name)
      else if left.column = SizeColumn then
        .ok (decide (leftSection.size < rightSection.size))
      else if left.column = AddressColumn ∨ left.column = EndAddressColumn then
        .ok (decide (leftSection.vaddr < rightSection.vaddr))
      else if left.column = EntropyColumn then
        .ok (QString.lt leftSection.entropy rightSection.entropy)
      else .ok false

/-- Method `QSortFilterProxyModel::data`, which `SectionsProxyModel`
inherits: the proxy index is mapped to the source model (`mapToSource`, which
depends on the current sorting and filter and is a parameter) and the source
model is asked, unless a valid proxy index has no source index. -/
def SectionsProxyModel.data (RAddressString : Nat → QString) (mapToSource : QModelIndex → QModelIndex)
    (sections : List SectionDescription) (index : QModelIndex) (role : Int) :
    Except Fault QVariant :=
  let source_index := mapToSource index
  if index.isValid && !source_index.isValid then .ok .invalid
  else SectionsModel.data RAddressString sections source_index role

/-! ## SectionsWidget -/

/-- The state of the widget that the two slots touch: its section list and the
addresses of the calls `Core()->seek(addr)` issued so far, oldest first. -/
structure SectionsWidget where
  sections : List SectionDescription
  seeks : List Nat
deriving DecidableEq, Repr

/-- Slot `SectionsWidget::refreshSections`; `allSections` is what
`Core()->getAllSections()` returns. The model reset notifications and the
column resizing do not touch the state. -/
def SectionsWidget.refreshSections (w : SectionsWidget) (allSections : List SectionDescription) :
    SectionsWidget :=
  { w with sections := allSections }

/-- Slot `SectionsWidget::onSectionsDoubleClicked`; the index is an index of
the proxy model set on the view. -/
def SectionsWidget.onSectionsDoubleClicked (RAddressString : Nat → QString)
    (mapToSource : QModelIndex → QModelIndex) (w : SectionsWidget)
    (index : QModelIndex) : Except Fault SectionsWidget :=
  if !index.isValid then .ok w
  else
    match (if index.m then
        SectionsProxyModel.data RAddressString mapToSource w.sections index SectionDescriptionRole
      else .ok .invalid) with
    | .error e => .error e
    | .ok v =>
      let sec := v.value
      .ok { w with seeks := w.seeks ++ [sec.vaddr] }

/-! ## Sample data -/

/-- The address formatter used in examples: `0x` followed by the hexadecimal
digits. -/
def hexAddress (a : Nat) : QString :=
  QString.fromLiteral ("0x" ++ String.mk (Nat.toDigits 16 a))

/-- A section `.text`. -/
def secText : SectionDescription :=
  { vaddr := 0x1000, size := 0x300, name := QString.fromLiteral ".text",
    entropy := QString.fromLiteral "6.1" }

/-- A section `.data`. -/
def secData : SectionDescription :=
  { vaddr := 0x2000, size := 0x80, name := QString.fromLiteral ".data",
    entropy := QString.fromLiteral "3.4" }

/-- A section `.bss`. -/
def secBss : SectionDescription :=
  { vaddr := 0x3000, size := 0x40, name := QString.fromLiteral ".bss",
    entropy := QString.fromLiteral "0.0" }

/-- A section that starts below `.data` and ends above it. -/
def secWide : SectionDescription :=
  { vaddr := 0x1000, size := 0x2000, name := QString.fromLiteral ".wide",
    entropy := QString.fromLiteral "5.0" }

/-- A section list of three sections. -/
def sampleSections : List SectionDescription := [secText, secData, secBss]

/-! ## Proof-side descriptions of the comparison

The two definitions below are not part of the program: they name what the
lemmas about `SectionsProxyModel.lessThan` are stated with. -/

/-- The descriptor that `index.data(SectionDescriptionRole).value<...>()`
yields for a row that is not negative: the section of the row, or the empty
descriptor past the end of the list. -/
def sectionAt (sections : List SectionDescription) (row : Int) : SectionDescription :=
  (sections.get? row.toNat).getD SectionDescription.empty

/-- The sort key of a descriptor in a column, as a sequence of numbers: the two
strings compare as they are, a number compares as a one-element sequence, and
an unknown column has the same key for every descriptor. -/
def sortKey (column : Int) (s : SectionDescription) : List Nat :=
  if column = NameColumn then s.name
  else if column = SizeColumn then [s.size]
  else if column = AddressColumn ∨ column = EndAddressColumn then [s.vaddr]
  else if column = EntropyColumn then s.entropy
  else []

/-! ## Lemmas on `QString.lt` -/

theorem QString.lt_iff_lex (a b : QString) :
    QString.lt a b = true ↔ List.Lex (· < ·) a b := by
  induction a generalizing b with
  | nil =>
    cases b with
    | nil => simp [QString.lt]
    | cons y ys => simp [QString.lt, List.Lex.nil]
  | cons x xs ih =>
    cases b with
    | nil => simp [QString.lt]
    | cons y ys =>
      simp only [QString.lt]
      by_cases hxy : x < y
      · simp [hxy, List.Lex.rel hxy]
      · by_cases hyx : y < x
        · simp only [hxy, hyx, if_false, if_true]
          constructor
          · intro h; cases h
          · intro h
            cases h with
            | cons h => exact absurd hyx (lt_irrefl _)
            | rel h => exact absurd h hxy
        · have hEq : x = y := by omega
          subst hEq
          simp only [hxy, if_false]
          rw [ih ys]
          constructor
          · intro h; exact List.Lex.cons h
          · intro h
            cases h with
            | cons h => exact h
            | rel h => exact absurd h hxy

theorem QString.lt_irrefl (a : QString) : QString.lt a a = false := by
  cases h : QString.lt a a with
  | false => rfl
  | true =>
    exact absurd ((QString.lt_iff_lex a a).1 h) (irrefl_of (List.Lex (· < ·)) a)

theorem QString.lt_asymm {a b : QString} (h : QString.lt a b = true) :
    QString.lt b a = false := by
  cases h' : QString.lt b a with
  | false => rfl
  | true =>
    exact absurd ((QString.lt_iff_lex b a).1 h')
      (asymm_of (List.Lex (· < ·)) ((QString.lt_iff_lex a b).1 h))

theorem QString.lt_trans {a b c : QString} (hab : QString.lt a b = true)
    (hbc : QString.lt b c = true) : QString.lt a c = true :=
  (QString.lt_iff_lex a c).2
    (trans_of (List.Lex (· < ·)) ((QString.lt_iff_lex a b).1 hab)
      ((QString.lt_iff_lex b c).1 hbc))

theorem QString.eq_of_not_lt {a b : QString} (hab : QString.lt a b = false)
    (hba : QString.lt b a = false) : a = b := by
  rcases (List.Lex.isTrichotomous (fun x y : Nat => x < y)).trichotomous a b with h | h | h
  · rw [(QString.lt_iff_lex a b).2 h] at hab; cases hab
  · exact h
  · rw [(QString.lt_iff_lex b a).2 h] at hba; cases hba

theorem QString.lt_singleton (x y : Nat) : QString.lt [x] [y] = decide (x < y) := by
  by_cases hxy : x < y
  · simp [QString.lt, hxy]
  · by_cases hyx : y < x
    · simp [QString.lt, hxy, hyx]
    · simp [QString.lt, hxy, hyx]

/-! ## Lemmas on list access and on `SectionsModel.data` -/

theorem QList.at_eq_ok {α : Type} (l : List α) (i : Int) (x : α) (h0 : 0 ≤ i)
    (hx : l.get? i.toNat = some x) : QList.at l i = .ok x := by
  simp only [QList.at, h0, if_true, hx]

theorem QList.at_neg {α : Type} (l : List α) (i : Int) (h : i < 0) :
    QList.at l i = .error (.indexOutOfRange i l.length) := by
  have h0 : ¬ 0 ≤ i := by omega
  simp only [QList.at, h0, if_false]

theorem exists_get?_of_lt {α : Type} (l : List α) (i : Int) (h0 : 0 ≤ i)
    (hlt : i < (l.length : Int)) : ∃ x, l.get? i.toNat = some x := by
  have hn : i.toNat < l.length := by omega
  exact ⟨l.get ⟨i.toNat, hn⟩, List.get?_eq_get hn⟩

theorem lt_length_of_get? {α : Type} (l : List α) (i : Int) (x : α) (h0 : 0 ≤ i)
    (hx : l.get? i.toNat = some x) : i < (l.length : Int) := by
  have hn : i.toNat < l.length := by
    by_contra hcon
    have hnone : l.get? i.toNat = none := List.get?_eq_none.2 (by omega)
    rw [hnone] at hx
    cases hx
  omega

theorem colors_at (row : Int) (h0 : 0 ≤ row) :
    ∃ c, colors.get? (row.toNat % 11) = some c ∧
      QList.at colors (Int.tmod row (colors.length : Int)) = .ok c := by
  have hlen : colors.length = 11 := rfl
  have hmod : Int.tmod row (colors.length : Int) = ((row.toNat % 11 : Nat) : Int) := by
    rw [hlen, Int.tmod_eq_emod h0 (by decide)]
    omega
  have hn : row.toNat % 11 < colors.length := by
    rw [hlen]; exact Nat.mod_lt _ (by decide)
  refine ⟨colors.get ⟨row.toNat % 11, hn⟩, List.get?_eq_get hn, ?_⟩
  rw [hmod]
  apply QList.at_eq_ok
  · omega
  · rw [Int.toNat_ofNat]
    exact List.get?_eq_get hn

theorem SectionsModel.data_past_end (R : Nat → QString) (sections : List SectionDescription)
    (index : QModelIndex) (role : Int) (h : (sections.length : Int) ≤ index.row) :
    SectionsModel.data R sections index role = .ok .invalid := by
  simp only [SectionsModel.data, ge_iff_le, h, if_true]

theorem SectionsModel.data_in_range (R : Nat → QString) (sections : List SectionDescription)
    (index : QModelIndex) (role : Int) (s : SectionDescription) (h0 : 0 ≤ index.row)
    (hs : sections.get? index.row.toNat = some s) :
    SectionsModel.data R sections index role =
      if role = DisplayRole then
        if index.column = NameColumn then .ok (.string s.name)
        else if index.column = SizeColumn then .ok (.ulonglong s.size)
        else if index.column = AddressColumn then .ok (.string (R s.vaddr))
        else if index.column = EndAddressColumn then
          .ok (.string (R ((s.vaddr + s.size) % 2 ^ 64)))
        else if index.column = EntropyColumn then .ok (.string s.entropy)
        else .ok .invalid
      else if role = DecorationRole then
        if index.column = 0 then
          match QList.at colors (Int.tmod index.row (colors.length : Int)) with
          | .error e => .error e
          | .ok c => .ok (.color c)
        else .ok .invalid
      else if role = SectionDescriptionRole then .ok (.sectionDescription s)
      else .ok .invalid := by
  have hlt := lt_length_of_get? sections index.row s h0 hs
  have hge : ¬ index.row ≥ (sections.length : Int) := by omega
  simp only [SectionsModel.data, hge, if_false, QList.at_eq_ok sections index.row s h0 hs]

theorem SectionsModel.data_description (R : Nat → QString)
    (sections : List SectionDescription) (index : QModelIndex) (h0 : 0 ≤ index.row) :
    ∃ v, SectionsModel.data R sections index SectionDescriptionRole = .ok v ∧
      v.value = sectionAt sections index.row := by
  by_cases hlt : index.row < (sections.length : Int)
  · obtain ⟨s, hs⟩ := exists_get?_of_lt sections index.row h0 hlt
    refine ⟨.sectionDescription s, ?_, ?_⟩
    · rw [SectionsModel.data_in_range R sections index _ s h0 hs]
      simp [SectionDescriptionRole, UserRole, DisplayRole, DecorationRole]
    · simp only [QVariant.value, sectionAt, hs, Option.getD]
  · refine ⟨.invalid, SectionsModel.data_past_end R sections index _ (by omega), ?_⟩
    have hnone : sections.get? index.row.toNat = none := List.get?_eq_none.2 (by omega)
    simp only [QVariant.value, sectionAt, hnone, Option.getD]

theorem SectionsProxyModel.lessThan_eq_sortKey (R : Nat → QString)
    (sections : List SectionDescription) (left right : QModelIndex)
    (hl : 0 ≤ left.row) (hr : 0 ≤ right.row) (hlm : left.m = true) (hrm : right.m = true) :
    SectionsProxyModel.lessThan R sections left right =
      .ok (QString.lt (sortKey left.column (sectionAt sections left.row))
        (sortKey left.column (sectionAt sections right.row))) := by
  obtain ⟨lv, hlv, hlval⟩ := SectionsModel.data_description R sections left hl
  obtain ⟨rv, hrv, hrval⟩ := SectionsModel.data_description R sections right hr
  simp only [SectionsProxyModel.lessThan, QModelIndex.data, hlm, hrm, if_true, hlv, hrv,
    hlval, hrval, sortKey, NameColumn, SizeColumn, AddressColumn, EndAddressColumn,
    EntropyColumn]
  by_cases h0 : left.column = 0
  · simp [h0]
  · by_cases h1 : left.column = 1
    · simp [h1, QString.lt_singleton]
    · by_cases h2 : left.column = 2
      · simp [h2, QString.lt_singleton]
      · by_cases h3 : left.column = 3
        · simp [h3, QString.lt_singleton]
        · by_cases h4 : left.column = 4
          · simp [h4]
          · simp [h0, h1, h2, h3, h4, QString.lt]

theorem sectionAt_of_get? (sections : List SectionDescription) (row : Int)
    (s : SectionDescription) (hs : sections.get? row.toNat = some s) :
    sectionAt sections row = s := by
  simp only [sectionAt, hs, Option.getD]

/-! ## C1: the comparison of the sort proxy -/

/-- C1: for indexes of the model whose rows hold the descriptors `l` and `r`,
`lessThan` is the comparison of the names in the Name column, of the sizes in
the Size column, of the start addresses in the Address column and of the
entropies in the Entropy column; both descriptors are what the model returns
for `SectionDescriptionRole`, the column of the right index plays no part, and
any other pair of indexes with the same left column and the same two
descriptors gives the same result. -/
theorem SectionsProxyModel.lessThan_field_comparison (R : Nat → QString)
    (sections : List SectionDescription) (left right : QModelIndex)
    (l r : SectionDescription) (hlm : left.m = true) (hrm : right.m = true)
    (hl0 : 0 ≤ left.row) (hr0 : 0 ≤ right.row)
    (hl : sections.get? left.row.toNat = some l)
    (hr : sections.get? right.row.toNat = some r) :
    QModelIndex.data R sections left SectionDescriptionRole = .ok (.sectionDescription l) ∧
    QModelIndex.data R sections right SectionDescriptionRole = .ok (.sectionDescription r) ∧
    (left.column = NameColumn →
      SectionsProxyModel.lessThan R sections left right = .ok (QString.lt l.name r.name)) ∧
    (left.column = SizeColumn →
      SectionsProxyModel.lessThan R sections left right = .ok (decide (l.size < r.size))) ∧
    (left.column = AddressColumn →
      SectionsProxyModel.lessThan R sections left right = .ok (decide (l.vaddr < r.vaddr))) ∧
    (left.column = EntropyColumn →
      SectionsProxyModel.lessThan R sections left right
        = .ok (QString.lt l.entropy r.entropy)) ∧
    (∀ c : Int, SectionsProxyModel.lessThan R sections left { right with column := c }
      = SectionsProxyModel.lessThan R sections left right) ∧
    (∀ (R2 : Nat → QString) (sections2 : List SectionDescription) (left2 right2 : QModelIndex),
      left2.m = true → right2.m = true → 0 ≤ left2.row → 0 ≤ right2.row →
      sections2.get? left2.row.toNat = some l → sections2.get? right2.row.toNat = some r →
      left2.column = left.column →
      SectionsProxyModel.lessThan R2 sections2 left2 right2
        = SectionsProxyModel.lessThan R sections left right) := by
  have key := SectionsProxyModel.lessThan_eq_sortKey R sections left right hl0 hr0 hlm hrm
  rw [sectionAt_of_get? sections left.row l hl, sectionAt_of_get? sections right.row r hr] at key
  have hdesc : ∀ (idx : QModelIndex) (s : SectionDescription), idx.m = true → 0 ≤ idx.row →
      sections.get? idx.row.toNat = some s →
      QModelIndex.data R sections idx SectionDescriptionRole = .ok (.sectionDescription s) := by
    intro idx s hm h0 hs
    simp only [QModelIndex.data, hm, if_true]
    rw [SectionsModel.data_in_range R sections idx _ s h0 hs]
    simp [SectionDescriptionRole, UserRole, DisplayRole, DecorationRole]
  refine ⟨hdesc left l hlm hl0 hl, hdesc right r hrm hr0 hr, ?_, ?_, ?_, ?_, ?_, ?_⟩
  · intro hc
    rw [key, hc]
    simp [sortKey, NameColumn]
  · intro hc
    rw [key, hc]
    simp [sortKey, NameColumn, SizeColumn, QString.lt_singleton]
  · intro hc
    rw [key, hc]
    simp [sortKey, NameColumn, SizeColumn, AddressColumn, QString.lt_singleton]
  · intro hc
    rw [key, hc]
    simp [sortKey, NameColumn, SizeColumn, AddressColumn, EndAddressColumn, EntropyColumn]
  · intro c
    rw [key]
    have h2 := SectionsProxyModel.lessThan_eq_sortKey R sections left
      { right with column := c } hl0 hr0 hlm hrm
    rw [h2]
    simp only [sectionAt_of_get? sections left.row l hl,
      sectionAt_of_get? sections right.row r hr]
  · intro R2 sections2 left2 right2 hlm2 hrm2 hl2 hr2 hls hrs hc
    rw [key, SectionsProxyModel.lessThan_eq_sortKey R2 sections2 left2 right2 hl2 hr2 hlm2 hrm2,
      sectionAt_of_get? sections2 left2.row l hls, sectionAt_of_get? sections2 right2.row r hrs,
      hc]

/-- Witness of C1: the rows `.text` and `.data` of the sample list, compared in
the Name column. -/
theorem SectionsProxyModel.lessThan_field_comparison_witness :
    sampleSections.get? (0 : Int).toNat = some secText ∧
    sampleSections.get? (1 : Int).toNat = some secData ∧
    SectionsProxyModel.lessThan hexAddress sampleSections ⟨0, NameColumn, true⟩
      ⟨1, NameColumn, true⟩ = .ok (QString.lt secText.name secData.name) :=
  ⟨rfl, rfl,
    (SectionsProxyModel.lessThan_field_comparison hexAddress sampleSections
      ⟨0, NameColumn, true⟩ ⟨1, NameColumn, true⟩ secText secData rfl rfl
      (by decide) (by decide) rfl rfl).2.2.1 rfl⟩

/-! ## C2: what the table displays -/

/-- C2: for a row with `0 <= row < rowCount` there is a section `s` at that
row, and `data` with `DisplayRole` returns `s.name` in the Name column,
`s.size` in the Size column, the address string of `s.vaddr` in the Address
column, the address string of `s.vaddr + s.size` modulo `2 ^ 64` in the End
Address column and `s.entropy` in the Entropy column. -/
theorem SectionsModel.data_display (R : Nat → QString) (sections : List SectionDescription)
    (index parent : QModelIndex) (h0 : 0 ≤ index.row)
    (hlt : index.row < SectionsModel.rowCount sections parent) :
    ∃ s, sections.get? index.row.toNat = some s ∧
      (index.column = NameColumn →
        SectionsModel.data R sections index DisplayRole = .ok (.string s.name)) ∧
      (index.column = SizeColumn →
        SectionsModel.data R sections index DisplayRole = .ok (.ulonglong s.size)) ∧
      (index.column = AddressColumn →
        SectionsModel.data R sections index DisplayRole = .ok (.string (R s.vaddr))) ∧
      (index.column = EndAddressColumn →
        SectionsModel.data R sections index DisplayRole
          = .ok (.string (R ((s.vaddr + s.size) % 2 ^ 64)))) ∧
      (index.column = EntropyColumn →
        SectionsModel.data R sections index DisplayRole = .ok (.string s.entropy)) := by
  obtain ⟨s, hs⟩ := exists_get?_of_lt sections index.row h0 hlt
  refine ⟨s, hs, ?_, ?_, ?_, ?_, ?_⟩ <;> intro hc <;>
    rw [SectionsModel.data_in_range R sections index _ s h0 hs, hc] <;>
    simp [NameColumn, SizeColumn, AddressColumn, EndAddressColumn, EntropyColumn]

/-- Witness of C2: row 1 of the sample list. -/
theorem SectionsModel.data_display_witness :
    (0 : Int) ≤ 1 ∧ (1 : Int) < SectionsModel.rowCount sampleSections QModelIndex.null ∧
    ∃ s, sampleSections.get? (1 : Int).toNat = some s ∧
      SectionsModel.data hexAddress sampleSections ⟨1, EndAddressColumn, true⟩ DisplayRole
        = .ok (.string (hexAddress ((s.vaddr + s.size) % 2 ^ 64))) :=
  ⟨by decide, by decide,
    (SectionsModel.data_display hexAddress sampleSections ⟨1, EndAddressColumn, true⟩
      QModelIndex.null (by decide) (by decide)).imp
      fun _ h => ⟨h.1, h.2.2.2.2.1 rfl⟩⟩

/-! ## C3: sorting by the End Address column -/

/-- C3, as stated, fails: in the list `[secWide, secData]` the first row is
less than the second in the End Address column, while the end address shown
for the first row, `0x3000`, is above the one shown for the second,
`0x2080`. -/
theorem SectionsProxyModel.lessThan_endAddress_counterexample :
    SectionsProxyModel.lessThan hexAddress [secWide, secData]
      ⟨0, EndAddressColumn, true⟩ ⟨1, EndAddressColumn, true⟩ = .ok true ∧
    SectionsModel.data hexAddress [secWide, secData] ⟨0, EndAddressColumn, true⟩ DisplayRole
      = .ok (.string (hexAddress 0x3000)) ∧
    SectionsModel.data hexAddress [secWide, secData] ⟨1, EndAddressColumn, true⟩ DisplayRole
      = .ok (.string (hexAddress 0x2080)) ∧
    ¬ ((secWide.vaddr + secWide.size) % 2 ^ 64 ≤ (secData.vaddr + secData.size) % 2 ^ 64) := by
  refine ⟨by decide, by decide, by decide, by decide⟩

/-- C3, amended: in the End Address column `lessThan` compares the start
addresses, exactly as it does in the Address column; when it holds, the size of
the left section is at most the size of the right one and the end of the right
section does not wrap around `2 ^ 64`, the end address shown for the left row is
below the one shown for the right row. -/
theorem SectionsProxyModel.lessThan_endAddress_by_start (R : Nat → QString)
    (sections : List SectionDescription) (left right : QModelIndex)
    (l r : SectionDescription) (hlm : left.m = true) (hrm : right.m = true)
    (hl0 : 0 ≤ left.row) (hr0 : 0 ≤ right.row)
    (hl : sections.get? left.row.toNat = some l)
    (hr : sections.get? right.row.toNat = some r)
    (hc : left.column = EndAddressColumn) :
    SectionsProxyModel.lessThan R sections left right = .ok (decide (l.vaddr < r.vaddr)) ∧
    SectionsProxyModel.lessThan R sections left right
      = SectionsProxyModel.lessThan R sections { left with column := AddressColumn } right ∧
    (SectionsProxyModel.lessThan R sections left right = .ok true →
      l.size ≤ r.size → r.vaddr + r.size < 2 ^ 64 →
      (l.vaddr + l.size) % 2 ^ 64 < (r.vaddr + r.size) % 2 ^ 64) := by
  have key := SectionsProxyModel.lessThan_eq_sortKey R sections left right hl0 hr0 hlm hrm
  have key2 := SectionsProxyModel.lessThan_eq_sortKey R sections
    { left with column := AddressColumn } right hl0 hr0 hlm hrm
  rw [sectionAt_of_get? sections left.row l hl, sectionAt_of_get? sections right.row r hr]
    at key key2
  have hval : SectionsProxyModel.lessThan R sections left right
      = .ok (decide (l.vaddr < r.vaddr)) := by
    rw [key, hc]
    simp [sortKey, NameColumn, SizeColumn, AddressColumn, EndAddressColumn,
      QString.lt_singleton]
  refine ⟨hval, ?_, ?_⟩
  · rw [hval, key2]
    simp [sortKey, NameColumn, SizeColumn, AddressColumn, QString.lt_singleton]
  · intro hlt hsize hwrap
    rw [hval] at hlt
    have hv : l.vaddr < r.vaddr := by simpa using hlt
    have h1 : l.vaddr + l.size < r.vaddr + r.size := by omega
    rw [Nat.mod_eq_of_lt hwrap, Nat.mod_eq_of_lt (lt_trans h1 hwrap)]
    exact h1

/-- Witness of the amended C3: the rows `.text` and `.data` of the sample list. -/
theorem SectionsProxyModel.lessThan_endAddress_by_start_witness :
    sampleSections.get? (0 : Int).toNat = some secText ∧
    sampleSections.get? (1 : Int).toNat = some secData ∧
    SectionsProxyModel.lessThan hexAddress sampleSections ⟨0, EndAddressColumn, true⟩
      ⟨1, EndAddressColumn, true⟩ = .ok (decide (secText.vaddr < secData.vaddr)) :=
  ⟨rfl, rfl,
    (SectionsProxyModel.lessThan_endAddress_by_start hexAddress sampleSections
      ⟨0, EndAddressColumn, true⟩ ⟨1, EndAddressColumn, true⟩ secText secData rfl rfl
      (by decide) (by decide) rfl rfl rfl).1⟩

/-! ## C4: double click -/

/-- C4: for a valid index of the view that the proxy maps to a valid row of the
model holding the section `s`, `onSectionsDoubleClicked` issues one seek, to
`s.vaddr`, whatever the column, and leaves the section list as it is; for an
invalid index it changes nothing: no seek is issued. -/
theorem SectionsWidget.onSectionsDoubleClicked_seek (R : Nat → QString)
    (mapToSource : QModelIndex → QModelIndex) (w : SectionsWidget) (index : QModelIndex) :
    (∀ s, index.isValid = true → (mapToSource index).isValid = true →
      w.sections.get? (mapToSource index).row.toNat = some s →
      SectionsWidget.onSectionsDoubleClicked R mapToSource w index
        = .ok { sections := w.sections, seeks := w.seeks ++ [s.vaddr] }) ∧
    (index.isValid = false →
      SectionsWidget.onSectionsDoubleClicked R mapToSource w index = .ok w) := by
  constructor
  · intro s hv hsv hs
    have hm : index.m = true := by
      simp only [QModelIndex.isValid, Bool.and_eq_true] at hv
      exact hv.2
    have h0 : 0 ≤ (mapToSource index).row := by
      simp only [QModelIndex.isValid, Bool.and_eq_true, decide_eq_true_eq] at hsv
      exact hsv.1.1
    have hd : SectionsModel.data R w.sections (mapToSource index) SectionDescriptionRole
        = .ok (.sectionDescription s) := by
      rw [SectionsModel.data_in_range R w.sections _ _ s h0 hs]
      simp [SectionDescriptionRole, UserRole, DisplayRole, DecorationRole]
    simp only [SectionsWidget.onSectionsDoubleClicked, SectionsProxyModel.data, hv, hsv, hm,
      hd, Bool.not_true, Bool.and_false, if_true, QVariant.value]
    simp
  · intro hv
    simp only [SectionsWidget.onSectionsDoubleClicked, hv, Bool.not_false, if_true]

/-- Witness of C4: a double click on row 1, column 3 of the sample list with
the identity mapping, and a double click on the null index. -/
theorem SectionsWidget.onSectionsDoubleClicked_seek_witness :
    (SectionsWidget.onSectionsDoubleClicked hexAddress id ⟨sampleSections, [7]⟩ ⟨1, 3, true⟩
      = .ok ⟨sampleSections, [7, 0x2000]⟩) ∧
    (SectionsWidget.onSectionsDoubleClicked hexAddress id ⟨sampleSections, [7]⟩
      QModelIndex.null = .ok ⟨sampleSections, [7]⟩) :=
  ⟨(SectionsWidget.onSectionsDoubleClicked_seek hexAddress id ⟨sampleSections, [7]⟩
      ⟨1, 3, true⟩).1 secData rfl rfl rfl,
    (SectionsWidget.onSectionsDoubleClicked_seek hexAddress id ⟨sampleSections, [7]⟩
      QModelIndex.null).2 rfl⟩

/-! ## C5: refresh -/

/-- C5: after `refreshSections` the section list of the widget is the list `L`
that the core returned and nothing else, so `rowCount` is the length of `L`,
`data` answers from `L` alone and describes `L[i]` at row `i`; no seek is
issued, and a second refresh with the same `L` changes nothing. -/
theorem SectionsWidget.refreshSections_full_reset (R : Nat → QString) (w : SectionsWidget)
    (L : List SectionDescription) (parent : QModelIndex) :
    (SectionsWidget.refreshSections w L).sections = L ∧
    (SectionsWidget.refreshSections w L).seeks = w.seeks ∧
    SectionsModel.rowCount (SectionsWidget.refreshSections w L).sections parent = L.length ∧
    (∀ (index : QModelIndex) (role : Int),
      SectionsModel.data R (SectionsWidget.refreshSections w L).sections index role
        = SectionsModel.data R L index role) ∧
    (∀ (i : Nat) (s : SectionDescription) (c : Int) (m : Bool), L.get? i = some s →
      SectionsModel.data R (SectionsWidget.refreshSections w L).sections ⟨i, c, m⟩
        SectionDescriptionRole = .ok (.sectionDescription s)) ∧
    SectionsWidget.refreshSections (SectionsWidget.refreshSections w L) L
      = SectionsWidget.refreshSections w L := by
  refine ⟨rfl, rfl, rfl, fun _ _ => rfl, ?_, rfl⟩
  intro i s c m hs
  have h0 : (0 : Int) ≤ (⟨i, c, m⟩ : QModelIndex).row := Int.ofNat_nonneg i
  rw [SectionsModel.data_in_range R _ _ _ s h0 (by simpa [SectionsWidget.refreshSections] using hs)]
  simp [SectionDescriptionRole, UserRole, DisplayRole, DecorationRole]

/-- Witness of C5: a widget showing `[secWide]` is refreshed with the sample
list; row 2 then describes `.bss`. -/
theorem SectionsWidget.refreshSections_full_reset_witness :
    sampleSections.get? 2 = some secBss ∧
    SectionsModel.data hexAddress
      (SectionsWidget.refreshSections ⟨[secWide], [7]⟩ sampleSections).sections
      ⟨(2 : Nat), 0, true⟩ SectionDescriptionRole = .ok (.sectionDescription secBss) :=
  ⟨rfl,
    (SectionsWidget.refreshSections_full_reset hexAddress ⟨[secWide], [7]⟩ sampleSections
      QModelIndex.null).2.2.2.2.1 2 secBss 0 true rfl⟩

/-! ## C6: the shape of the model -/

/-- C6: `rowCount` is the number of descriptors in the wrapped list and
`columnCount` is the constant `ColumnCount`, five, whatever the list and the
parent index. -/
theorem SectionsModel.rowCount_columnCount (sections : List SectionDescription)
    (parent : QModelIndex) :
    SectionsModel.rowCount sections parent = (sections.length : Int) ∧
    SectionsModel.columnCount sections parent = ColumnCount ∧
    ColumnCount = 5 ∧
    [NameColumn, SizeColumn, AddressColumn, EndAddressColumn, EntropyColumn]
      = List.map Int.ofNat (List.range 5) ∧
    (∀ (sections2 : List SectionDescription) (parent2 : QModelIndex),
      SectionsModel.columnCount sections2 parent2 = SectionsModel.columnCount sections parent) :=
  ⟨rfl, rfl, rfl, by decide, fun _ _ => rfl⟩

/-! ## C7: the comparison is a strict weak ordering -/

/-- C7: in every column, on the rows of any section list, `lessThan` is
irreflexive, asymmetric and transitive, and being incomparable is transitive;
in a column other than the five known ones it is false for every pair. -/
theorem SectionsProxyModel.lessThan_strict_weak_order (R : Nat → QString)
    (sections : List SectionDescription) (c : Int) (i j k : Int)
    (hi : 0 ≤ i) (hj : 0 ≤ j) (hk : 0 ≤ k) :
    SectionsProxyModel.lessThan R sections ⟨i, c, true⟩ ⟨i, c, true⟩ = .ok false ∧
    (SectionsProxyModel.lessThan R sections ⟨i, c, true⟩ ⟨j, c, true⟩ = .ok true →
      SectionsProxyModel.lessThan R sections ⟨j, c, true⟩ ⟨i, c, true⟩ = .ok false) ∧
    (SectionsProxyModel.lessThan R sections ⟨i, c, true⟩ ⟨j, c, true⟩ = .ok true →
      SectionsProxyModel.lessThan R sections ⟨j, c, true⟩ ⟨k, c, true⟩ = .ok true →
      SectionsProxyModel.lessThan R sections ⟨i, c, true⟩ ⟨k, c, true⟩ = .ok true) ∧
    (SectionsProxyModel.lessThan R sections ⟨i, c, true⟩ ⟨j, c, true⟩ = .ok false →
      SectionsProxyModel.lessThan R sections ⟨j, c, true⟩ ⟨i, c, true⟩ = .ok false →
      SectionsProxyModel.lessThan R sections ⟨j, c, true⟩ ⟨k, c, true⟩ = .ok false →
      SectionsProxyModel.lessThan R sections ⟨k, c, true⟩ ⟨j, c, true⟩ = .ok false →
      SectionsProxyModel.lessThan R sections ⟨i, c, true⟩ ⟨k, c, true⟩ = .ok false ∧
      SectionsProxyModel.lessThan R sections ⟨k, c, true⟩ ⟨i, c, true⟩ = .ok false) ∧
    (c ≠ NameColumn → c ≠ SizeColumn → c ≠ AddressColumn → c ≠ EndAddressColumn →
      c ≠ EntropyColumn →
      SectionsProxyModel.lessThan R sections ⟨i, c, true⟩ ⟨j, c, true⟩ = .ok false) := by
  have key : ∀ a b : Int, 0 ≤ a → 0 ≤ b →
      SectionsProxyModel.lessThan R sections ⟨a, c, true⟩ ⟨b, c, true⟩
        = .ok (QString.lt (sortKey c (sectionAt sections a)) (sortKey c (sectionAt sections b))) :=
    fun a b ha hb =>
      SectionsProxyModel.lessThan_eq_sortKey R sections ⟨a, c, true⟩ ⟨b, c, true⟩ ha hb rfl rfl
  rw [key i i hi hi, key i j hi hj, key j i hj hi, key j k hj hk, key k j hk hj,
    key i k hi hk, key k i hk hi]
  refine ⟨?_, ?_, ?_, ?_, ?_⟩
  · rw [QString.lt_irrefl]
  · intro h
    rw [QString.lt_asymm (Except.ok.inj h)]
  · intro h1 h2
    rw [QString.lt_trans (Except.ok.inj h1) (Except.ok.inj h2)]
  · intro h1 h2 h3 h4
    have e1 := QString.eq_of_not_lt (Except.ok.inj h1) (Except.ok.inj h2)
    have e2 := QString.eq_of_not_lt (Except.ok.inj h3) (Except.ok.inj h4)
    rw [e1, e2, QString.lt_irrefl]
    exact ⟨rfl, rfl⟩
  · intro h0 h1 h2 h3 h4
    have hor : ¬ (c = AddressColumn ∨ c = EndAddressColumn) := by
      rintro (h | h)
      · exact h2 h
      · exact h3 h
    simp only [sortKey, h0, h1, hor, h4, if_false, QString.lt]

/-- Witness of C7: rows 0, 1 and 2 of the sample list in the Size column. -/
theorem SectionsProxyModel.lessThan_strict_weak_order_witness :
    (0 : Int) ≤ 0 ∧ (0 : Int) ≤ 1 ∧ (0 : Int) ≤ 2 ∧
    SectionsProxyModel.lessThan hexAddress sampleSections ⟨0, SizeColumn, true⟩
      ⟨0, SizeColumn, true⟩ = .ok false :=
  ⟨by decide, by decide, by decide,
    (SectionsProxyModel.lessThan_strict_weak_order hexAddress sampleSections SizeColumn 0 1 2
      (by decide) (by decide) (by decide)).1⟩

/-! ## C8: reads of `data` -/

/-- C8, at the failing input: for the row `-1` of an invalid index the guard
`row >= count` does not fire and the section list is read at position `-1`,
outside `[0, rowCount)`, for every list, column and role. -/
theorem SectionsModel.data_row_minus_one (R : Nat → QString)
    (sections : List SectionDescription) (c : Int) (m : Bool) (role : Int) :
    SectionsModel.data R sections ⟨-1, c, m⟩ role
      = .error (.indexOutOfRange (-1) sections.length) := by
  have hge : ¬ ((-1 : Int) ≥ (sections.length : Int)) := by omega
  simp only [SectionsModel.data, hge, if_false,
    QList.at_neg sections (-1) (by decide)]

/-- For a row that is not negative `data` reads no list out of range; below
`rowCount`, the decoration of column 0 is the palette entry `row mod 11`. -/
theorem SectionsModel.data_no_fault (R : Nat → QString) (sections : List SectionDescription)
    (index : QModelIndex) (role : Int) (h0 : 0 ≤ index.row) :
    (∃ v, SectionsModel.data R sections index role = .ok v) ∧
    (index.row < (sections.length : Int) → index.column = 0 →
      ∃ col, colors.get? (index.row.toNat % 11) = some col ∧
        SectionsModel.data R sections index DecorationRole = .ok (.color col)) := by
  obtain ⟨col, hcol, hat⟩ := colors_at index.row h0
  by_cases hlt : index.row < (sections.length : Int)
  · obtain ⟨s, hs⟩ := exists_get?_of_lt sections index.row h0 hlt
    constructor
    · rw [SectionsModel.data_in_range R sections index role s h0 hs, hat]
      split_ifs <;> exact ⟨_, rfl⟩
    · intro _ hc
      refine ⟨col, hcol, ?_⟩
      rw [SectionsModel.data_in_range R sections index _ s h0 hs, hat]
      simp [hc, DisplayRole, DecorationRole]
  · exact ⟨⟨_, SectionsModel.data_past_end R sections index role (by omega)⟩,
      fun h => absurd h hlt⟩

/-! ## C9: when `data` is empty -/

/-- C9: for a row that is not negative, `data` returns the invalid variant
exactly when the row is at or past `rowCount`, or the role is none of the three
handled ones, or the role is `DisplayRole` and the column is none of the five,
or the role is `DecorationRole` and the column is not 0; and
`SectionDescriptionRole` returns the descriptor of the row in every column. -/
theorem SectionsModel.data_invalid_iff (R : Nat → QString)
    (sections : List SectionDescription) (index parent : QModelIndex) (role : Int)
    (h0 : 0 ≤ index.row) :
    (SectionsModel.data R sections index role = .ok .invalid ↔
      (SectionsModel.rowCount sections parent ≤ index.row ∨
        (role ≠ DisplayRole ∧ role ≠ DecorationRole ∧ role ≠ SectionDescriptionRole) ∨
        (role = DisplayRole ∧ index.column ≠ NameColumn ∧ index.column ≠ SizeColumn ∧
          index.column ≠ AddressColumn ∧ index.column ≠ EndAddressColumn ∧
          index.column ≠ EntropyColumn) ∨
        (role = DecorationRole ∧ index.column ≠ 0))) ∧
    (∀ s, sections.get? index.row.toNat = some s →
      SectionsModel.data R sections index SectionDescriptionRole
        = .ok (.sectionDescription s)) := by
  constructor
  · by_cases hlt : index.row < (sections.length : Int)
    · obtain ⟨s, hs⟩ := exists_get?_of_lt sections index.row h0 hlt
      obtain ⟨col, _, hat⟩ := colors_at index.row h0
      have hnot : ¬ SectionsModel.rowCount sections parent ≤ index.row := by
        simp only [SectionsModel.rowCount]; omega
      rw [SectionsModel.data_in_range R sections index role s h0 hs, hat]
      simp only [hnot, false_or]
      by_cases hr0 : role = DisplayRole
      · subst hr0
        simp only [if_true, DisplayRole, DecorationRole, SectionDescriptionRole, UserRole]
        split_ifs <;> simp_all
      · by_cases hr1 : role = DecorationRole
        · subst hr1
          simp only [DisplayRole, DecorationRole, SectionDescriptionRole, UserRole]
          split_ifs <;> simp_all
        · by_cases hr2 : role = SectionDescriptionRole
          · subst hr2
            simp only [DisplayRole, DecorationRole, SectionDescriptionRole, UserRole]
            simp
          · simp [hr0, hr1, hr2]
    · have hge : (sections.length : Int) ≤ index.row := by omega
      rw [SectionsModel.data_past_end R sections index role hge]
      simp only [SectionsModel.rowCount, hge, true_or]
  · intro s hs
    rw [SectionsModel.data_in_range R sections index _ s h0 hs]
    simp [SectionDescriptionRole, UserRole, DisplayRole, DecorationRole]

/-- Witness of C9: row 1 of the sample list, column 7, `DisplayRole`. -/
theorem SectionsModel.data_invalid_iff_witness :
    (0 : Int) ≤ 1 ∧
    SectionsModel.data hexAddress sampleSections ⟨1, 7, true⟩ DisplayRole = .ok .invalid :=
  ⟨by decide,
    (SectionsModel.data_invalid_iff hexAddress sampleSections ⟨1, 7, true⟩ QModelIndex.null
      DisplayRole (by decide)).1.2 (Or.inr (Or.inr (Or.inl (by decide))))⟩

/-! ## C10: header labels -/

/-- C10: for every orientation, `headerData` with `DisplayRole` returns the
labels Name, Size, Address, End Address and Entropy, passed through the
translation lookup, for the five columns in this order, and the invalid variant
for any other section number and for any other role. -/
theorem SectionsModel.headerData_labels (tr : String → QString) (o : Orientation) :
    SectionsModel.headerData tr NameColumn o DisplayRole = .string (tr "Name") ∧
    SectionsModel.headerData tr SizeColumn o DisplayRole = .string (tr "Size") ∧
    SectionsModel.headerData tr AddressColumn o DisplayRole = .string (tr "Address") ∧
    SectionsModel.headerData tr EndAddressColumn o DisplayRole
      = .string (tr "End Address") ∧
    SectionsModel.headerData tr EntropyColumn o DisplayRole = .string (tr "Entropy") ∧
    (∀ sec : Int, sec ≠ NameColumn → sec ≠ SizeColumn → sec ≠ AddressColumn →
      sec ≠ EndAddressColumn → sec ≠ EntropyColumn →
      SectionsModel.headerData tr sec o DisplayRole = .invalid) ∧
    (∀ sec role : Int, role ≠ DisplayRole →
      SectionsModel.headerData tr sec o role = .invalid) := by
  refine ⟨rfl, rfl, rfl, rfl, rfl, ?_, ?_⟩
  · intro sec h0 h1 h2 h3 h4
    simp only [SectionsModel.headerData, h0, h1, h2, h3, h4, if_true, if_false]
  · intro sec role hr
    simp only [SectionsModel.headerData, hr, if_false]

/-- Witness of C10: without a translation the vertical header of section 9 is
empty and the label of the End Address column is the literal text. -/
theorem SectionsModel.headerData_labels_witness :
    SectionsModel.headerData QString.fromLiteral 9 .Vertical DisplayRole = .invalid ∧
    SectionsModel.headerData QString.fromLiteral EndAddressColumn .Vertical DisplayRole
      = .string (QString.fromLiteral "End Address") :=
  ⟨(SectionsModel.headerData_labels QString.fromLiteral .Vertical).2.2.2.2.2.1 9
      (by decide) (by decide) (by decide) (by decide) (by decide),
    (SectionsModel.headerData_labels QString.fromLiteral .Vertical).2.2.2.1⟩

end Cutter
